import Mathlib

/-!
Shallow embedding of `delegatefn/delegate.py`.

The repository's single operation is the decorator factory
`delegate(delegatee, *, kwonly, delegate_docstring, ignore, kwargs_name,
default_values, preserve_signature)`; the returned `decorator(delegator)`
merges the delegatee's signature into the delegator's and copies the
docstring.  We embed `inspect.Parameter`, `inspect.Signature` (as a plain
parameter list), the configuration record, and the body of `decorator` as a
pure function returning `Except DelegateError Fn`.

Python exceptions that `decorator` can raise, in program order:
  * `KeyError` - `delegator_sig.parameters[kwargs_name]` with no such name;
  * `AssertionError` - either of the two `assert` statements;
  * `TypeError` - the `preserve_signature` branch indexes the list
    `parameters` with a string parameter name;
  * `ValueError` - `delegator_sig.replace(parameters=...)` rejects the
    combined parameter list (duplicate name, wrong kind order, or a
    non-default positional parameter after a default one).  CPython raises
    `ValueError` for each of these, so the embedding collapses them into
    one constructor.
-/

/-- The five kinds of `inspect.Parameter`. -/
inductive ParamKind where
  | positionalOnly
  | positionalOrKeyword
  | varPositional
  | keywordOnly
  | varKeyword
deriving DecidableEq

/-- Numeric order of `inspect._ParameterKind` (used by signature validation). -/
def kindIndex : ParamKind → Nat
  | ParamKind.positionalOnly => 0
  | ParamKind.positionalOrKeyword => 1
  | ParamKind.varPositional => 2
  | ParamKind.keywordOnly => 3
  | ParamKind.varKeyword => 4

/-- An `inspect.Parameter`: name, kind, optional default, optional
type annotation (`inspect._empty` is `none`).  Default and annotation
values are opaque, modelled as strings. -/
structure Param where
  name : String
  kind : ParamKind
  default : Option String
  ann : Option String
deriving DecidableEq

/-- A callable together with the metadata the decorator reads and writes:
its signature (ordered parameter list), `__doc__`, and `__annotations__`
(an insertion-ordered dict, modelled as an association list). -/
structure Fn where
  params : List Param
  doc : Option String
  anns : List (String × Option String)
deriving DecidableEq

/-- The keyword options of `delegate(...)`. -/
structure Config where
  kwonly : Bool
  delegate_docstring : Bool
  ignore : List String
  kwargs_name : String
  default_values : Bool
  preserve_signature : Bool
deriving DecidableEq

/-- The defaults of `delegate(...)`:
`kwonly=False, delegate_docstring=True, ignore=set(), kwargs_name="kwargs",
default_values=False, preserve_signature=False`. -/
def defaultConfig : Config :=
  { kwonly := false
    delegate_docstring := true
    ignore := []
    kwargs_name := "kwargs"
    default_values := false
    preserve_signature := false }

/-- `p.kind == inspect.Parameter.VAR_KEYWORD`. -/
def isVarKeyword (p : Param) : Bool :=
  match p.kind with
  | ParamKind.varKeyword => true
  | _ => false

/-- Python dict assignment `d[k] = v` on an insertion-ordered dict of
parameters keyed by name: update in place if the key exists, else append. -/
def dictInsert : List Param → Param → List Param
  | [], p => [p]
  | q :: rest, p => if q.name = p.name then p :: rest else q :: dictInsert rest p

/-- Python dict assignment on `__annotations__`. -/
def assocSet : List (String × Option String) → String → Option String → List (String × Option String)
  | [], n, v => [(n, v)]
  | (m, w) :: rest, n, v => if m = n then (n, v) :: rest else (m, w) :: assocSet rest n v

/-- One iteration of the `for name, param in delegatee_sig.parameters.items()`
loop of `decorator`, restricted to its effect on the `delegatee_kwargs` dict
(`dk`).  Mirrors, in order: the `ignore` skip, then the
`if VAR_KEYWORD / elif name in delegator_sig.parameters /
elif POSITIONAL_OR_KEYWORD / elif KEYWORD_ONLY / elif default_values` chain. -/
def delegStep (cfg : Config) (wparams : List Param) (dk : List Param) (p : Param) : List Param :=
  if p.name ∈ cfg.ignore then dk
  else if p.kind = ParamKind.varKeyword then dictInsert dk p
  else if p.name ∈ wparams.map Param.name then dk
  else if p.kind = ParamKind.positionalOrKeyword then
    (if cfg.kwonly = false then dictInsert dk { p with kind := ParamKind.keywordOnly } else dk)
  else if p.kind = ParamKind.keywordOnly then dictInsert dk p
  else if cfg.default_values = true then dictInsert dk { p with default := p.default }
  else dk

/-- The `delegatee_kwargs` dict after the whole loop. -/
def delegKwargs (cfg : Config) (wparams : List Param) (sparams : List Param) : List Param :=
  sparams.foldl (delegStep cfg wparams) []

/-- One iteration of the same loop, restricted to its effect on
`delegator.__annotations__`: for a keyword-only or positional-or-keyword
delegatee parameter that also appears in the delegator's signature without
an annotation, copy the delegatee's annotation. -/
def annStep (cfg : Config) (wparams : List Param) (anns : List (String × Option String)) (p : Param) : List (String × Option String) :=
  if p.name ∈ cfg.ignore then anns
  else if p.kind = ParamKind.keywordOnly ∨ (p.kind = ParamKind.positionalOrKeyword ∧ ¬ p.name ∈ cfg.ignore) then
    match wparams.find? (fun q => q.name == p.name) with
    | some q => if q.ann = none then assocSet anns p.name p.ann else anns
    | none => anns
  else anns

/-- `delegator.__annotations__` after the whole loop. -/
def newAnns (cfg : Config) (wparams : List Param) (anns0 : List (String × Option String)) (sparams : List Param) : List (String × Option String) :=
  sparams.foldl (annStep cfg wparams) anns0

/-- The second `assert` of `decorator`: either the delegatee has no
variadic-keyword parameter, or `delegatee_kwargs` contains one. -/
def varKwAssert (sparams dk : List Param) : Bool :=
  sparams.all (fun p => ! isVarKeyword p) || dk.any (fun p => isVarKeyword p)

/-- `parameters = list(delegator_sig.parameters.values())[:-1] +
list(delegatee_kwargs.values())`. -/
def mergedParams (cfg : Config) (delegatee delegator : Fn) : List Param :=
  delegator.params.dropLast ++ delegKwargs cfg delegator.params delegatee.params

/-- The per-parameter default-ordering condition of `inspect.Signature`
validation: a positional parameter without a default must not follow one
with a default of the same kind run. -/
def posDefaultsOK (p : Param) (kd : Bool) : Bool :=
  if p.kind = ParamKind.positionalOnly ∨ p.kind = ParamKind.positionalOrKeyword then
    (match p.default with
     | none => ! kd
     | some _ => true)
  else true

/-- The `kind_defaults` flag after processing `p` under signature validation. -/
def nextKindDefaults (p : Param) (kd : Bool) : Bool :=
  if p.kind = ParamKind.positionalOnly ∨ p.kind = ParamKind.positionalOrKeyword then
    (match p.default with
     | none => kd
     | some _ => true)
  else kd

/-- The validation loop of `inspect.Signature.__init__` (run by
`Signature.replace(parameters=...)`): kinds must be non-decreasing, a
positional parameter without a default must not follow one with a default,
and names must be distinct.  CPython raises `ValueError` at the first
violated condition; the embedding returns `false` exactly when some
condition is violated. -/
def checkParametersAux : Nat → Bool → List String → List Param → Bool
  | _, _, _, [] => true
  | topKind, kindDefaults, seen, p :: rest =>
    (! decide (kindIndex p.kind < topKind)) &&
    posDefaultsOK p (if topKind < kindIndex p.kind then false else kindDefaults) &&
    (! decide (p.name ∈ seen)) &&
    checkParametersAux (kindIndex p.kind)
      (nextKindDefaults p (if topKind < kindIndex p.kind then false else kindDefaults))
      (p.name :: seen) rest

/-- `inspect.Signature(parameters)` succeeds on this parameter list. -/
def checkParameters (ps : List Param) : Bool :=
  checkParametersAux 0 false [] ps

/-- The exceptions `decorator` can raise, see the module docstring. -/
inductive DelegateError where
  | keyError
  | assertionError
  | typeError
  | valueError
deriving DecidableEq

/-- The spec's `ConfigurationError`: in the code, the `KeyError` from the
collector lookup or an `AssertionError` from one of the two asserts. -/
def ConfigFailure (r : Except DelegateError Fn) : Prop :=
  r = Except.error DelegateError.keyError ∨ r = Except.error DelegateError.assertionError

/-- The collector check of `decorator`:
`delegator_sig.parameters[kwargs_name].kind == VAR_KEYWORD` (dict lookup
followed by the first `assert`). -/
def collectorOK (cfg : Config) (w : Fn) : Bool :=
  match w.params.find? (fun q => q.name == cfg.kwargs_name) with
  | some q => isVarKeyword q
  | none => false

/-- The body of `decorator(delegator)` from `delegatefn/delegate.py`, as a
pure function from the delegatee's and delegator's metadata to either the
delegator's new metadata or the exception raised.  Steps in program order:
collector lookup and first assert; the loop building `delegatee_kwargs` and
updating `__annotations__`; the second assert; the `preserve_signature`
branch (which in the source indexes the list `parameters` with a string
name, hence `TypeError` as soon as `delegatee_kwargs` is non-empty);
`delegator_sig.replace(parameters=parameters)`; the docstring copy. -/
def decorate (cfg : Config) (delegatee delegator : Fn) : Except DelegateError Fn :=
  match delegator.params.find? (fun q => q.name == cfg.kwargs_name) with
  | none => Except.error DelegateError.keyError
  | some q =>
    if isVarKeyword q then
      if varKwAssert delegatee.params (delegKwargs cfg delegator.params delegatee.params) then
        if cfg.preserve_signature && ! (delegKwargs cfg delegator.params delegatee.params).isEmpty then
          Except.error DelegateError.typeError
        else if checkParameters (mergedParams cfg delegatee delegator) then
          Except.ok
            { params := mergedParams cfg delegatee delegator
              doc := if cfg.delegate_docstring then delegatee.doc else delegator.doc
              anns := newAnns cfg delegator.params delegator.anns delegatee.params }
        else Except.error DelegateError.valueError
      else Except.error DelegateError.assertionError
    else Except.error DelegateError.assertionError

/-- Shorthand for building a parameter with no annotation. -/
def mkP (n : String) (k : ParamKind) (d : Option String) : Param :=
  { name := n, kind := k, default := d, ann := none }

/-- Relation between a delegatee parameter `q` and the entry `p` it
contributes to `delegatee_kwargs`, read off the branches of the loop. -/
def Rsrc (cfg : Config) (wparams : List Param) (q p : Param) : Prop :=
  p.name = q.name ∧ p.default = q.default ∧ p.ann = q.ann ∧ ¬ q.name ∈ cfg.ignore ∧
  ((q.kind = ParamKind.varKeyword ∧ p = q) ∨
   (¬ q.name ∈ wparams.map Param.name ∧
     ((q.kind = ParamKind.positionalOrKeyword ∧ cfg.kwonly = false ∧
        p = { q with kind := ParamKind.keywordOnly }) ∨
      (q.kind = ParamKind.keywordOnly ∧ p = q) ∨
      (¬ q.kind = ParamKind.varKeyword ∧ ¬ q.kind = ParamKind.positionalOrKeyword ∧
        ¬ q.kind = ParamKind.keywordOnly ∧ cfg.default_values = true ∧
        p = { q with default := q.default }))))

/-- The parameter kinds admitted by the data model of the spec
(positional-only and variadic-positional are out of scope). -/
def kindSupported (q : Param) : Bool :=
  match q.kind with
  | ParamKind.positionalOrKeyword => true
  | ParamKind.keywordOnly => true
  | ParamKind.varKeyword => true
  | _ => false

/-- Phase machine for the ordering law: positional-or-keyword parameters
(phase 0), then keyword-only parameters (phase 1), then at most one
variadic-keyword parameter in final position; no other kinds. -/
def groupedAux : Nat → List Param → Bool
  | _, [] => true
  | phase, p :: rest =>
    match p.kind with
    | ParamKind.positionalOrKeyword => decide (phase = 0) && groupedAux 0 rest
    | ParamKind.keywordOnly => decide (phase ≤ 1) && groupedAux 1 rest
    | ParamKind.varKeyword => rest.isEmpty
    | _ => false

/-- A parameter list grouped positional-or-keyword, then keyword-only, then
at most one variadic-keyword parameter which is last. -/
def grouped (ps : List Param) : Bool := groupedAux 0 ps

/-- Scenario 1 of the spec, the repository's first README example:
source `(a, b, c)` with a docstring, wrapper `(**kwargs)`, defaults;
the merged signature is keyword-only `(*, a, b, c)` with the source's
docstring. -/
theorem readme_scenario1 :
    decorate defaultConfig
      { params := [mkP "a" ParamKind.positionalOrKeyword none,
                   mkP "b" ParamKind.positionalOrKeyword none,
                   mkP "c" ParamKind.positionalOrKeyword none],
        doc := some "This is the docstring for foo.", anns := [] }
      { params := [mkP "kwargs" ParamKind.varKeyword none], doc := none, anns := [] } =
    Except.ok
      { params := [mkP "a" ParamKind.keywordOnly none,
                   mkP "b" ParamKind.keywordOnly none,
                   mkP "c" ParamKind.keywordOnly none],
        doc := some "This is the docstring for foo.", anns := [] } := rfl

theorem isVarKeyword_iff (p : Param) : isVarKeyword p = true ↔ p.kind = ParamKind.varKeyword := by
  cases h : p.kind <;> simp [isVarKeyword, h]

theorem dictInsert_subset : ∀ (dk : List Param) (x p : Param), p ∈ dictInsert dk x → p ∈ dk ∨ p = x := by
  intro dk x
  induction dk with
  | nil =>
    intro p h
    simp [dictInsert] at h
    exact Or.inr h
  | cons r rest ih =>
    intro p h
    by_cases hr : r.name = x.name
    · rw [dictInsert, if_pos hr] at h
      rcases List.mem_cons.mp h with h1 | h1
      · exact Or.inr h1
      · exact Or.inl (List.mem_cons_of_mem _ h1)
    · rw [dictInsert, if_neg hr] at h
      rcases List.mem_cons.mp h with h1 | h1
      · exact Or.inl (h1 ▸ List.mem_cons_self _ _)
      · rcases ih p h1 with h2 | h2
        · exact Or.inl (List.mem_cons_of_mem _ h2)
        · exact Or.inr h2

theorem dictInsert_names : ∀ (dk : List Param) (x : Param),
    (dictInsert dk x).map Param.name =
      if x.name ∈ dk.map Param.name then dk.map Param.name else dk.map Param.name ++ [x.name] := by
  intro dk x
  induction dk with
  | nil => simp [dictInsert]
  | cons r rest ih =>
    by_cases hr : r.name = x.name
    · rw [dictInsert, if_pos hr]
      simp [hr]
    · rw [dictInsert, if_neg hr]
      simp only [List.map_cons, ih, List.mem_cons]
      by_cases h2 : x.name ∈ rest.map Param.name
      · simp [h2]
      · have hne : ¬ x.name = r.name := fun he => hr he.symm
        simp [h2, hne]

theorem dictInsert_fresh : ∀ (dk : List Param) (x : Param),
    ¬ x.name ∈ dk.map Param.name → dictInsert dk x = dk ++ [x] := by
  intro dk x
  induction dk with
  | nil => intro _; rfl
  | cons r rest ih =>
    intro h
    simp only [List.map_cons, List.mem_cons] at h
    push_neg at h
    rw [dictInsert, if_neg (fun he => h.1 he.symm), ih h.2]
    rfl

theorem dictInsert_nodup (dk : List Param) (x : Param) (h : (dk.map Param.name).Nodup) :
    ((dictInsert dk x).map Param.name).Nodup := by
  rw [dictInsert_names]
  by_cases h2 : x.name ∈ dk.map Param.name
  · rwa [if_pos h2]
  · rw [if_neg h2]
    simp [List.nodup_append, h, h2]

theorem delegStep_mem (cfg : Config) (wparams dk : List Param) (q p : Param)
    (h : p ∈ delegStep cfg wparams dk q) : p ∈ dk ∨ Rsrc cfg wparams q p := by
  unfold delegStep at h
  by_cases hig : q.name ∈ cfg.ignore
  · rw [if_pos hig] at h
    exact Or.inl h
  · rw [if_neg hig] at h
    by_cases hvk : q.kind = ParamKind.varKeyword
    · rw [if_pos hvk] at h
      rcases dictInsert_subset _ _ _ h with h1 | h1
      · exact Or.inl h1
      · subst h1
        exact Or.inr ⟨rfl, rfl, rfl, hig, Or.inl ⟨hvk, rfl⟩⟩
    · rw [if_neg hvk] at h
      by_cases hw : q.name ∈ wparams.map Param.name
      · rw [if_pos hw] at h
        exact Or.inl h
      · rw [if_neg hw] at h
        by_cases hpok : q.kind = ParamKind.positionalOrKeyword
        · rw [if_pos hpok] at h
          by_cases hkw : cfg.kwonly = false
          · rw [if_pos hkw] at h
            rcases dictInsert_subset _ _ _ h with h1 | h1
            · exact Or.inl h1
            · subst h1
              exact Or.inr ⟨rfl, rfl, rfl, hig, Or.inr ⟨hw, Or.inl ⟨hpok, hkw, rfl⟩⟩⟩
          · rw [if_neg hkw] at h
            exact Or.inl h
        · rw [if_neg hpok] at h
          by_cases hko : q.kind = ParamKind.keywordOnly
          · rw [if_pos hko] at h
            rcases dictInsert_subset _ _ _ h with h1 | h1
            · exact Or.inl h1
            · subst h1
              exact Or.inr ⟨rfl, rfl, rfl, hig, Or.inr ⟨hw, Or.inr (Or.inl ⟨hko, rfl⟩)⟩⟩
          · rw [if_neg hko] at h
            by_cases hdv : cfg.default_values = true
            · rw [if_pos hdv] at h
              rcases dictInsert_subset _ _ _ h with h1 | h1
              · exact Or.inl h1
              · subst h1
                exact Or.inr ⟨rfl, rfl, rfl, hig,
                  Or.inr ⟨hw, Or.inr (Or.inr ⟨hvk, hpok, hko, hdv, rfl⟩)⟩⟩
            · rw [if_neg hdv] at h
              exact Or.inl h

theorem foldl_delegStep_mem (cfg : Config) (wparams : List Param) :
    ∀ (sp acc : List Param) (p : Param), p ∈ sp.foldl (delegStep cfg wparams) acc →
      p ∈ acc ∨ ∃ q, q ∈ sp ∧ Rsrc cfg wparams q p := by
  intro sp
  induction sp with
  | nil =>
    intro acc p h
    exact Or.inl h
  | cons q0 rest ih =>
    intro acc p h
    rw [List.foldl_cons] at h
    rcases ih _ p h with h1 | ⟨q, hq, hr⟩
    · rcases delegStep_mem cfg wparams acc q0 p h1 with h2 | h2
      · exact Or.inl h2
      · exact Or.inr ⟨q0, List.mem_cons_self _ _, h2⟩
    · exact Or.inr ⟨q, List.mem_cons_of_mem _ hq, hr⟩

theorem delegKwargs_mem (cfg : Config) (wparams sparams : List Param) (p : Param)
    (h : p ∈ delegKwargs cfg wparams sparams) : ∃ q, q ∈ sparams ∧ Rsrc cfg wparams q p := by
  rcases foldl_delegStep_mem cfg wparams sparams [] p h with h1 | h1
  · cases h1
  · exact h1

theorem delegStep_nodup (cfg : Config) (wparams dk : List Param) (q : Param)
    (h : (dk.map Param.name).Nodup) : ((delegStep cfg wparams dk q).map Param.name).Nodup := by
  unfold delegStep
  repeat' split
  all_goals first
    | exact h
    | exact dictInsert_nodup _ _ h

theorem delegKwargs_nodup (cfg : Config) (wparams : List Param) :
    ∀ (sp acc : List Param), (acc.map Param.name).Nodup →
      ((sp.foldl (delegStep cfg wparams) acc).map Param.name).Nodup := by
  intro sp
  induction sp with
  | nil =>
    intro acc h
    exact h
  | cons q0 rest ih =>
    intro acc h
    rw [List.foldl_cons]
    exact ih _ (delegStep_nodup _ _ _ _ h)

theorem checkParametersAux_nodup :
    ∀ (ps : List Param) (tk : Nat) (kd : Bool) (seen : List String),
      checkParametersAux tk kd seen ps = true →
      (ps.map Param.name).Nodup ∧ ∀ n, n ∈ ps.map Param.name → ¬ n ∈ seen := by
  intro ps
  induction ps with
  | nil =>
    intro tk kd seen _
    simp
  | cons p rest ih =>
    intro tk kd seen h
    rw [checkParametersAux] at h
    simp only [Bool.and_eq_true, Bool.not_eq_true', decide_eq_false_iff_not] at h
    obtain ⟨⟨⟨_, _⟩, hseen⟩, hrec⟩ := h
    obtain ⟨hnd, hdis⟩ := ih _ _ _ hrec
    constructor
    · simp only [List.map_cons, List.nodup_cons]
      refine ⟨fun hmem => ?_, hnd⟩
      exact hdis p.name hmem (List.mem_cons_self _ _)
    · intro n hn
      simp only [List.map_cons, List.mem_cons] at hn
      rcases hn with hn | hn
      · exact hn ▸ hseen
      · intro hns
        exact hdis n hn (List.mem_cons_of_mem _ hns)

theorem checkParameters_nodup (ps : List Param) (h : checkParameters ps = true) :
    (ps.map Param.name).Nodup :=
  (checkParametersAux_nodup ps 0 false [] h).1

theorem decorate_ok_inv (cfg : Config) (d w out : Fn) (h : decorate cfg d w = Except.ok out) :
    out.params = mergedParams cfg d w ∧
    out.doc = (if cfg.delegate_docstring then d.doc else w.doc) ∧
    out.anns = newAnns cfg w.params w.anns d.params ∧
    checkParameters (mergedParams cfg d w) = true ∧
    collectorOK cfg w = true ∧
    varKwAssert d.params (delegKwargs cfg w.params d.params) = true := by
  unfold decorate at h
  split at h
  · cases h
  · rename_i q hf
    split at h
    · rename_i hv
      split at h
      · rename_i ha
        split at h
        · cases h
        · split at h
          · rename_i hc
            cases h
            refine ⟨rfl, rfl, rfl, hc, ?_, ha⟩
            simp [collectorOK, hf, hv]
          · cases h
      · cases h
    · cases h

theorem decorate_of_collector (cfg : Config) (d w : Fn) (hcol : collectorOK cfg w = true) :
    decorate cfg d w =
      (if varKwAssert d.params (delegKwargs cfg w.params d.params) = true then
        (if (cfg.preserve_signature && ! (delegKwargs cfg w.params d.params).isEmpty) = true then
          Except.error DelegateError.typeError
        else if checkParameters (mergedParams cfg d w) = true then
          Except.ok
            { params := mergedParams cfg d w
              doc := if cfg.delegate_docstring then d.doc else w.doc
              anns := newAnns cfg w.params w.anns d.params }
        else Except.error DelegateError.valueError)
      else Except.error DelegateError.assertionError) := by
  unfold decorate
  split
  · rename_i hf
    simp [collectorOK, hf] at hcol
  · rename_i q hf
    have hv : isVarKeyword q = true := by simpa [collectorOK, hf] using hcol
    rw [if_pos hv]

theorem collectorOK_exists (cfg : Config) (w : Fn) (h : collectorOK cfg w = true) :
    ∃ q, q ∈ w.params ∧ q.kind = ParamKind.varKeyword := by
  unfold collectorOK at h
  cases hf : w.params.find? (fun q => q.name == cfg.kwargs_name) with
  | none => simp [hf] at h
  | some q =>
    rw [hf] at h
    exact ⟨q, List.mem_of_find?_eq_some hf, (isVarKeyword_iff q).mp h⟩

theorem Rsrc_kind_KO (cfg : Config) (wparams : List Param) (q p : Param)
    (hr : Rsrc cfg wparams q p)
    (hk : q.kind = ParamKind.positionalOrKeyword ∨ q.kind = ParamKind.keywordOnly) :
    p.kind = ParamKind.keywordOnly := by
  rcases hr.2.2.2.2 with ⟨hqvk, _⟩ | ⟨_, ⟨_, _, hpq⟩ | ⟨hq1, hpq⟩ | ⟨_, hnp, hnk, _, _⟩⟩
  · rcases hk with h | h <;> rw [h] at hqvk <;> exact ParamKind.noConfusion hqvk
  · subst hpq
    rfl
  · subst hpq
    exact hq1
  · rcases hk with h | h
    · exact absurd h hnp
    · exact absurd h hnk

theorem Rsrc_vk_of_vk (cfg : Config) (wparams : List Param) (q p : Param)
    (hr : Rsrc cfg wparams q p) (hpvk : p.kind = ParamKind.varKeyword) :
    q.kind = ParamKind.varKeyword := by
  rcases hr.2.2.2.2 with ⟨hqvk, _⟩ | ⟨_, ⟨_, _, hpq⟩ | ⟨hq1, hpq⟩ | ⟨hnq, _, _, _, hpq⟩⟩
  · exact hqvk
  · subst hpq
    exact ParamKind.noConfusion hpvk
  · subst hpq
    rw [hq1] at hpvk
    exact ParamKind.noConfusion hpvk
  · subst hpq
    exact absurd hpvk hnq

theorem Rsrc_wname_vk (cfg : Config) (wparams : List Param) (q p : Param)
    (hr : Rsrc cfg wparams q p) (hw : q.name ∈ wparams.map Param.name) :
    p.kind = ParamKind.varKeyword := by
  rcases hr.2.2.2.2 with ⟨hqvk, hpq⟩ | ⟨hnotw, _⟩
  · subst hpq
    exact hqvk
  · exact absurd hw hnotw

theorem delegKwargs_names_sub (cfg : Config) (wparams sparams : List Param) (n : String)
    (h : n ∈ (delegKwargs cfg wparams sparams).map Param.name) :
    n ∈ sparams.map Param.name := by
  obtain ⟨p, hp, hpn⟩ := List.mem_map.mp h
  obtain ⟨q, hq, hr⟩ := delegKwargs_mem cfg wparams sparams p hp
  refine List.mem_map.mpr ⟨q, hq, ?_⟩
  rw [← hpn, hr.1]

theorem delegKwargs_shape (cfg : Config) (wparams sp : List Param)
    (hnodup : (sp.map Param.name).Nodup)
    (hsup : ∀ q, q ∈ sp → kindSupported q = true)
    (hlast : ∀ q, q ∈ sp.dropLast → ¬ q.kind = ParamKind.varKeyword) :
    ∃ us vs, delegKwargs cfg wparams sp = us ++ vs ∧
      (∀ p, p ∈ us → p.kind = ParamKind.keywordOnly) ∧
      (vs = [] ∨ ∃ v, vs = [v] ∧ v.kind = ParamKind.varKeyword) := by
  have hsup' : ∀ q, q ∈ sp → q.kind = ParamKind.positionalOrKeyword ∨
      q.kind = ParamKind.keywordOnly ∨ q.kind = ParamKind.varKeyword := by
    intro q hq
    have := hsup q hq
    unfold kindSupported at this
    cases hk : q.kind <;> simp [hk] at this ⊢
  rcases List.eq_nil_or_concat sp with hnil | ⟨init, v, hcat⟩
  · refine ⟨[], [], ?_, by simp, Or.inl rfl⟩
    rw [hnil]
    rfl
  · rw [List.concat_eq_append] at hcat
    subst hcat
    have hinitk : ∀ q, q ∈ init → q.kind = ParamKind.positionalOrKeyword ∨
        q.kind = ParamKind.keywordOnly := by
      intro q hq
      rcases hsup' q (List.mem_append.mpr (Or.inl hq)) with h | h | h
      · exact Or.inl h
      · exact Or.inr h
      · exact absurd h (hlast q (by rw [List.dropLast_concat]; exact hq))
    by_cases hvk : v.kind = ParamKind.varKeyword
    · have hKOinit : ∀ p, p ∈ delegKwargs cfg wparams init → p.kind = ParamKind.keywordOnly := by
        intro p hp
        obtain ⟨q, hq, hr⟩ := delegKwargs_mem cfg wparams init p hp
        exact Rsrc_kind_KO cfg wparams q p hr (hinitk q hq)
      have hfold : delegKwargs cfg wparams (init ++ [v]) =
          delegStep cfg wparams (delegKwargs cfg wparams init) v := by
        rw [delegKwargs, delegKwargs, List.foldl_append]
        rfl
      by_cases hig : v.name ∈ cfg.ignore
      · refine ⟨delegKwargs cfg wparams init, [], ?_, hKOinit, Or.inl rfl⟩
        rw [hfold]
        unfold delegStep
        rw [if_pos hig]
        simp
      · have hfresh : ¬ v.name ∈ (delegKwargs cfg wparams init).map Param.name := by
          intro hmem
          have hvi : v.name ∈ init.map Param.name :=
            delegKwargs_names_sub cfg wparams init v.name hmem
          rw [List.map_append, List.nodup_append] at hnodup
          exact hnodup.2.2 hvi (by simp)
        refine ⟨delegKwargs cfg wparams init, [v], ?_, hKOinit, Or.inr ⟨v, rfl, hvk⟩⟩
        rw [hfold]
        unfold delegStep
        rw [if_neg hig, if_pos hvk, dictInsert_fresh _ _ hfresh]
    · have hallk : ∀ q, q ∈ init ++ [v] → q.kind = ParamKind.positionalOrKeyword ∨
          q.kind = ParamKind.keywordOnly := by
        intro q hq
        rcases List.mem_append.mp hq with h1 | h1
        · exact hinitk q h1
        · have hqv : q = v := by simpa using h1
          subst hqv
          rcases hsup' q hq with h | h | h
          · exact Or.inl h
          · exact Or.inr h
          · exact absurd h hvk
      refine ⟨delegKwargs cfg wparams (init ++ [v]), [], by simp, ?_, Or.inl rfl⟩
      intro p hp
      obtain ⟨q, hq, hr⟩ := delegKwargs_mem cfg wparams (init ++ [v]) p hp
      exact Rsrc_kind_KO cfg wparams q p hr (hallk q hq)

theorem groupedAux_mono : ∀ (t : List Param) (ph ph' : Nat), ph' ≤ ph →
    groupedAux ph t = true → groupedAux ph' t = true := by
  intro t
  induction t with
  | nil =>
    intro ph ph' _ _
    rfl
  | cons p rest ih =>
    intro ph ph' hle h
    cases hk : p.kind
    case positionalOnly =>
      rw [groupedAux, hk] at h
      cases h
    case varPositional =>
      rw [groupedAux, hk] at h
      cases h
    case positionalOrKeyword =>
      rw [groupedAux, hk] at h ⊢
      simp only [Bool.and_eq_true, decide_eq_true_eq] at h ⊢
      exact ⟨Nat.le_zero.mp (h.1 ▸ hle), h.2⟩
    case keywordOnly =>
      rw [groupedAux, hk] at h ⊢
      simp only [Bool.and_eq_true, decide_eq_true_eq] at h ⊢
      exact ⟨le_trans hle h.1, h.2⟩
    case varKeyword =>
      rw [groupedAux, hk] at h ⊢
      exact h

theorem groupedAux_pok (xs : List Param) :
    ∀ t, (∀ p, p ∈ xs → p.kind = ParamKind.positionalOrKeyword) →
      groupedAux 0 t = true → groupedAux 0 (xs ++ t) = true := by
  induction xs with
  | nil =>
    intro t _ h
    exact h
  | cons p rest ih =>
    intro t hall h
    have hp : p.kind = ParamKind.positionalOrKeyword := hall p (List.mem_cons_self _ _)
    rw [List.cons_append, groupedAux, hp]
    simp only [Bool.and_eq_true, decide_eq_true_eq]
    exact ⟨by trivial, ih t (fun q hq => hall q (List.mem_cons_of_mem _ hq)) h⟩

theorem groupedAux_ko (ys : List Param) :
    ∀ (ph : Nat) t, ph ≤ 1 → (∀ p, p ∈ ys → p.kind = ParamKind.keywordOnly) →
      groupedAux 1 t = true → groupedAux ph (ys ++ t) = true := by
  induction ys with
  | nil =>
    intro ph t hph _ h
    exact groupedAux_mono t 1 ph hph h
  | cons p rest ih =>
    intro ph t hph hall h
    have hp : p.kind = ParamKind.keywordOnly := hall p (List.mem_cons_self _ _)
    rw [List.cons_append, groupedAux, hp]
    simp only [Bool.and_eq_true, decide_eq_true_eq]
    exact ⟨hph, ih 1 t (le_refl 1) (fun q hq => hall q (List.mem_cons_of_mem _ hq)) h⟩

theorem groupedAux_end (ph : Nat) (vs : List Param)
    (h : vs = [] ∨ ∃ v, vs = [v] ∧ v.kind = ParamKind.varKeyword) :
    groupedAux ph vs = true := by
  rcases h with h | ⟨v, h1, h2⟩
  · subst h
    rfl
  · subst h1
    rw [groupedAux, h2]
    rfl

theorem groupedAux_decomp : ∀ (ps : List Param) (ph : Nat), groupedAux ph ps = true →
    ∃ xs ys zs, ps = xs ++ ys ++ zs ∧
      (∀ p, p ∈ xs → p.kind = ParamKind.positionalOrKeyword) ∧
      (∀ p, p ∈ ys → p.kind = ParamKind.keywordOnly) ∧
      (zs = [] ∨ ∃ v, zs = [v] ∧ v.kind = ParamKind.varKeyword) ∧
      (1 ≤ ph → xs = []) := by
  intro ps
  induction ps with
  | nil =>
    intro ph _
    exact ⟨[], [], [], rfl, by simp, by simp, Or.inl rfl, fun _ => rfl⟩
  | cons p rest ih =>
    intro ph h
    cases hk : p.kind
    case positionalOnly =>
      rw [groupedAux, hk] at h
      cases h
    case varPositional =>
      rw [groupedAux, hk] at h
      cases h
    case positionalOrKeyword =>
      rw [groupedAux, hk] at h
      simp only [Bool.and_eq_true, decide_eq_true_eq] at h
      obtain ⟨xs, ys, zs, he, hx, hy, hz, _⟩ := ih 0 h.2
      refine ⟨p :: xs, ys, zs, by rw [he]; rfl, ?_, hy, hz, ?_⟩
      · intro q hq
        rcases List.mem_cons.mp hq with h1 | h1
        · rw [h1]
          exact hk
        · exact hx q h1
      · intro hc
        rw [h.1] at hc
        exact absurd hc (by omega)
    case keywordOnly =>
      rw [groupedAux, hk] at h
      simp only [Bool.and_eq_true, decide_eq_true_eq] at h
      obtain ⟨xs, ys, zs, he, hx, hy, hz, hx1⟩ := ih 1 h.2
      have hxnil : xs = [] := hx1 (le_refl 1)
      subst hxnil
      refine ⟨[], p :: ys, zs, by rw [he]; rfl, by simp, ?_, hz, fun _ => rfl⟩
      intro q hq
      rcases List.mem_cons.mp hq with h1 | h1
      · rw [h1]
        exact hk
      · exact hy q h1
    case varKeyword =>
      rw [groupedAux, hk] at h
      have hnil : rest = [] := by
        cases rest with
        | nil => rfl
        | cons r t => cases h
      subst hnil
      exact ⟨[], [], [p], rfl, by simp, by simp, Or.inr ⟨p, rfl, hk⟩, fun _ => rfl⟩

theorem name_inj_of_nodup : ∀ (l : List Param) (p q : Param),
    (l.map Param.name).Nodup → p ∈ l → q ∈ l → p.name = q.name → p = q := by
  intro l
  induction l with
  | nil =>
    intro p q _ hp _ _
    cases hp
  | cons r rest ih =>
    intro p q hnd hp hq hname
    rw [List.map_cons, List.nodup_cons] at hnd
    rcases List.mem_cons.mp hp with hp1 | hp1 <;> rcases List.mem_cons.mp hq with hq1 | hq1
    · rw [hp1, hq1]
    · subst hp1
      exact absurd (hname ▸ List.mem_map.mpr ⟨q, hq1, rfl⟩) hnd.1
    · subst hq1
      exact absurd (hname ▸ List.mem_map.mpr ⟨p, hp1, rfl⟩) hnd.1
    · exact ih p q hnd.2 hp1 hq1 hname

/-- C1: the claim (and the source's own docstring) say that with
`kwonly=True` a positional-or-keyword delegatee parameter is carried into
the merged signature converted to keyword-only.  The code does the
opposite: `if not kwonly` guards the insertion, so with `kwonly=True` the
parameter `a` is dropped entirely (first conjunct), while with
`kwonly=False` it is the one that is converted to keyword-only (second
conjunct). -/
theorem C1_kwonly_flag_eval :
    decorate { defaultConfig with kwonly := true }
        { params := [mkP "a" ParamKind.positionalOrKeyword none], doc := some "source doc", anns := [] }
        { params := [mkP "kwargs" ParamKind.varKeyword none], doc := none, anns := [] } =
      Except.ok { params := [], doc := some "source doc", anns := [] } ∧
    decorate { defaultConfig with kwonly := false }
        { params := [mkP "a" ParamKind.positionalOrKeyword none], doc := some "source doc", anns := [] }
        { params := [mkP "kwargs" ParamKind.varKeyword none], doc := none, anns := [] } =
      Except.ok { params := [mkP "a" ParamKind.keywordOnly none], doc := some "source doc", anns := [] } :=
  ⟨rfl, rfl⟩

/-- C2: Scenario 4 - source `(a, b, c, **kwargs)` and wrapper `(**kwargs)`
under the default configuration merge to keyword-only `a, b, c` followed by
the variadic-keyword parameter, which survives because the source itself
declares one. -/
theorem C2_scenario4 :
    decorate defaultConfig
        { params := [mkP "a" ParamKind.positionalOrKeyword none,
                     mkP "b" ParamKind.positionalOrKeyword none,
                     mkP "c" ParamKind.positionalOrKeyword none,
                     mkP "kwargs" ParamKind.varKeyword none],
          doc := some "A docstring", anns := [] }
        { params := [mkP "kwargs" ParamKind.varKeyword none], doc := none, anns := [] } =
      Except.ok
        { params := [mkP "a" ParamKind.keywordOnly none,
                     mkP "b" ParamKind.keywordOnly none,
                     mkP "c" ParamKind.keywordOnly none,
                     mkP "kwargs" ParamKind.varKeyword none],
          doc := some "A docstring", anns := [] } := rfl

/-- C4: if the wrapper signature has no variadic-keyword parameter whose
name equals the configured collector name, decoration fails at decoration
time with the KeyError/AssertionError pair that the spec abstracts as
`ConfigurationError`. -/
theorem C4_missing_collector (cfg : Config) (s w : Fn)
    (hno : ∀ p, p ∈ w.params → ¬ (p.name = cfg.kwargs_name ∧ p.kind = ParamKind.varKeyword)) :
    ConfigFailure (decorate cfg s w) := by
  unfold decorate
  split
  · exact Or.inl rfl
  · rename_i q hf
    have hqmem : q ∈ w.params := List.mem_of_find?_eq_some hf
    have hqname : q.name = cfg.kwargs_name := by
      have := List.find?_some hf
      simpa using this
    have hv : ¬ isVarKeyword q = true := by
      rw [isVarKeyword_iff]
      intro hk
      exact hno q hqmem ⟨hqname, hk⟩
    rw [if_neg hv]
    exact Or.inr rfl

/-- Witness for C4: a wrapper `(x)` with no collector at all. -/
theorem C4_witness :
    ConfigFailure (decorate defaultConfig
      { params := [mkP "a" ParamKind.positionalOrKeyword none], doc := none, anns := [] }
      { params := [mkP "x" ParamKind.positionalOrKeyword none], doc := none, anns := [] }) :=
  C4_missing_collector defaultConfig _ _ (by decide)

/-- C9: with `delegate_docstring=True` the merged docstring is always the
delegatee's, so merging a second time (with the first result as the
wrapper) yields the same docstring as merging once. -/
theorem C9_doc_idempotent (cfg : Config) (s w out1 out2 : Fn)
    (hdoc : cfg.delegate_docstring = true)
    (h1 : decorate cfg s w = Except.ok out1)
    (h2 : decorate cfg s out1 = Except.ok out2) :
    out2.doc = out1.doc := by
  have i1 := (decorate_ok_inv cfg s w out1 h1).2.1
  have i2 := (decorate_ok_inv cfg s out1 out2 h2).2.1
  rw [hdoc, if_pos rfl] at i1 i2
  rw [i1, i2]

/-- Witness for C9 on source `(a, **kwargs)` and wrapper `(**kwargs)`,
where both the first and the second decoration succeed. -/
theorem C9_witness :
    (⟨[mkP "a" ParamKind.keywordOnly none, mkP "kwargs" ParamKind.varKeyword none], some "D",
       [("a", (none : Option String))]⟩ : Fn).doc =
    (⟨[mkP "a" ParamKind.keywordOnly none, mkP "kwargs" ParamKind.varKeyword none], some "D", []⟩ : Fn).doc :=
  C9_doc_idempotent defaultConfig
    ⟨[mkP "a" ParamKind.positionalOrKeyword none, mkP "kwargs" ParamKind.varKeyword none], some "D", []⟩
    ⟨[mkP "kwargs" ParamKind.varKeyword none], none, []⟩
    ⟨[mkP "a" ParamKind.keywordOnly none, mkP "kwargs" ParamKind.varKeyword none], some "D", []⟩
    ⟨[mkP "a" ParamKind.keywordOnly none, mkP "kwargs" ParamKind.varKeyword none], some "D", [("a", none)]⟩
    rfl rfl rfl

/-- C10 counterexample: `preserve_signature=True`, `ignore={"kw"}`, source
`(a, **kw)`, wrapper `(**kwargs)`.  The source parameter `a` survives into
the candidate set (second conjunct: `delegatee_kwargs` is exactly the
keyword-only copy of `a`), yet decoration raises `AssertionError` from the
second assert - the source's variadic-keyword parameter was ignored out of
`delegatee_kwargs` - before the freeze branch is reached, not the
`TypeError` the claim states (third conjunct). -/
theorem C10_cex :
    ({ defaultConfig with preserve_signature := true, ignore := ["kw"] } : Config).preserve_signature
        = true ∧
    delegKwargs { defaultConfig with preserve_signature := true, ignore := ["kw"] }
        [mkP "kwargs" ParamKind.varKeyword none]
        [mkP "a" ParamKind.positionalOrKeyword none, mkP "kw" ParamKind.varKeyword none] =
      [mkP "a" ParamKind.keywordOnly none] ∧
    decorate { defaultConfig with preserve_signature := true, ignore := ["kw"] }
      { params := [mkP "a" ParamKind.positionalOrKeyword none,
                   mkP "kw" ParamKind.varKeyword none], doc := none, anns := [] }
      { params := [mkP "kwargs" ParamKind.varKeyword none], doc := none, anns := [] } =
      Except.error DelegateError.assertionError :=
  ⟨rfl, rfl, rfl⟩

/-- C10 (amended): with `preserve_signature=True`, whenever decoration
reaches the freeze branch - the collector check and the second
variadic-keyword assert pass - and at least one source parameter survives
into `delegatee_kwargs`, the freeze branch indexes the `parameters` list
with a string name and raises `TypeError` before any signature is
attached.  (When the second assert fails instead, as in `C10_cex`,
decoration still fails, with `AssertionError`; either way
`preserve_signature` never completes successfully once a source parameter
survives.) -/
theorem C10_freeze_typeError (cfg : Config) (s w : Fn)
    (hcol : collectorOK cfg w = true)
    (ha : varKwAssert s.params (delegKwargs cfg w.params s.params) = true)
    (hps : cfg.preserve_signature = true)
    (hne : (delegKwargs cfg w.params s.params).isEmpty = false) :
    decorate cfg s w = Except.error DelegateError.typeError := by
  rw [decorate_of_collector cfg s w hcol, if_pos ha, if_pos (by rw [hps, hne]; rfl)]

/-- Witness for C10 (amended): source `(a)`, wrapper `(**kwargs)`,
`preserve_signature=True`; both asserts pass and the freeze branch raises
`TypeError`. -/
theorem C10_witness :
    decorate { defaultConfig with preserve_signature := true }
      { params := [mkP "a" ParamKind.positionalOrKeyword none], doc := none, anns := [] }
      { params := [mkP "kwargs" ParamKind.varKeyword none], doc := none, anns := [] } =
      Except.error DelegateError.typeError :=
  C10_freeze_typeError _ _ _ rfl rfl rfl rfl

/-- C3 counterexample: source `(**x)` and wrapper `(x, **kwargs)` with
`preserve_signature=True`.  The merged parameter list would contain the
name `x` twice (first conjunct), yet decoration fails with `TypeError`
from the freeze branch, not with the duplicate-name `ValueError` that the
spec calls `CollisionError` (second conjunct). -/
theorem C3_cex :
    ¬ ((mergedParams { defaultConfig with preserve_signature := true }
         { params := [mkP "x" ParamKind.varKeyword none], doc := none, anns := [] }
         { params := [mkP "x" ParamKind.positionalOrKeyword none,
                      mkP "kwargs" ParamKind.varKeyword none],
           doc := none, anns := [] }).map Param.name).Nodup ∧
    decorate { defaultConfig with preserve_signature := true }
      { params := [mkP "x" ParamKind.varKeyword none], doc := none, anns := [] }
      { params := [mkP "x" ParamKind.positionalOrKeyword none,
                   mkP "kwargs" ParamKind.varKeyword none],
        doc := none, anns := [] } =
      Except.error DelegateError.typeError :=
  ⟨by decide, rfl⟩

/-- C3 (amended): provided `preserve_signature` is false, whenever the
merged parameter list would contain two parameters with the same name,
decoration fails with the `ValueError` raised by signature validation -
the code's counterpart of the spec's `CollisionError`. -/
theorem C3_collision_valueError (cfg : Config) (s w : Fn)
    (hps : cfg.preserve_signature = false)
    (hcol : collectorOK cfg w = true)
    (hwn : (w.params.map Param.name).Nodup)
    (hdup : ¬ ((mergedParams cfg s w).map Param.name).Nodup) :
    decorate cfg s w = Except.error DelegateError.valueError := by
  have hdk : ((delegKwargs cfg w.params s.params).map Param.name).Nodup :=
    delegKwargs_nodup cfg w.params s.params [] (by simp)
  have hex : ((w.params.dropLast).map Param.name).Nodup :=
    List.Nodup.sublist ((List.dropLast_sublist w.params).map Param.name) hwn
  have hcross : ∃ n, n ∈ (w.params.dropLast).map Param.name ∧
      n ∈ (delegKwargs cfg w.params s.params).map Param.name := by
    by_contra hnone
    push_neg at hnone
    apply hdup
    rw [mergedParams, List.map_append, List.nodup_append]
    exact ⟨hex, hdk, fun n hn hn2 => hnone n hn hn2⟩
  obtain ⟨n, hn1, hn2⟩ := hcross
  obtain ⟨p, hp, hpn⟩ := List.mem_map.mp hn2
  obtain ⟨q, hq, hr⟩ := delegKwargs_mem cfg w.params s.params p hp
  have hnw : q.name ∈ w.params.map Param.name := by
    have hmem : n ∈ w.params.map Param.name :=
      ((List.dropLast_sublist w.params).map Param.name).subset hn1
    rw [← hpn, hr.1] at hmem
    exact hmem
  have hpvk : p.kind = ParamKind.varKeyword := Rsrc_wname_vk cfg w.params q p hr hnw
  have hassert : varKwAssert s.params (delegKwargs cfg w.params s.params) = true := by
    have hany : (delegKwargs cfg w.params s.params).any (fun p => isVarKeyword p) = true :=
      List.any_eq_true.mpr ⟨p, hp, (isVarKeyword_iff p).mpr hpvk⟩
    rw [varKwAssert, hany, Bool.or_true]
  have hcheck : ¬ checkParameters (mergedParams cfg s w) = true := fun hc =>
    hdup (checkParameters_nodup _ hc)
  rw [decorate_of_collector cfg s w hcol, if_pos hassert,
    if_neg (by rw [hps]; simp), if_neg hcheck]

/-- Witness for C3 (amended): same collision as the counterexample but with
the default configuration (`preserve_signature=False`). -/
theorem C3_witness :
    defaultConfig.preserve_signature = false ∧
    decorate defaultConfig
      { params := [mkP "x" ParamKind.varKeyword none], doc := none, anns := [] }
      { params := [mkP "x" ParamKind.positionalOrKeyword none,
                   mkP "kwargs" ParamKind.varKeyword none],
        doc := none, anns := [] } =
      Except.error DelegateError.valueError :=
  ⟨rfl, C3_collision_valueError defaultConfig _ _ rfl rfl (by decide) (by decide)⟩

/-- C5 counterexample: source `(a=1)`, wrapper `(**kwargs)`, default
configuration (so `default_values` - the spec's `inherit_defaults` - is
false).  The merged copy of `a` keeps the source's default `1`, where the
claim says it must have none. -/
theorem C5_cex :
    defaultConfig.default_values = false ∧
    decorate defaultConfig
      { params := [mkP "a" ParamKind.positionalOrKeyword (some "1")], doc := some "srcdoc", anns := [] }
      { params := [mkP "kwargs" ParamKind.varKeyword none], doc := none, anns := [] } =
      Except.ok { params := [mkP "a" ParamKind.keywordOnly (some "1")], doc := some "srcdoc", anns := [] } :=
  ⟨rfl, rfl⟩

/-- C5 (amended): a source parameter carried into the merged signature
always keeps the source's default value, even when `default_values`
(`inherit_defaults`) is false. -/
theorem C5_defaults_kept (cfg : Config) (s w out : Fn) (p q : Param)
    (_hdv : cfg.default_values = false)
    (hok : decorate cfg s w = Except.ok out)
    (hp : p ∈ out.params)
    (hnw : ¬ p.name ∈ w.params.map Param.name)
    (hq : q ∈ s.params)
    (hname : p.name = q.name)
    (hsn : (s.params.map Param.name).Nodup) :
    p.default = q.default := by
  obtain ⟨hparams, _, _, _, _, _⟩ := decorate_ok_inv cfg s w out hok
  rw [hparams, mergedParams] at hp
  rcases List.mem_append.mp hp with h1 | h1
  · exact absurd
      (((List.dropLast_sublist w.params).map Param.name).subset (List.mem_map.mpr ⟨p, h1, rfl⟩))
      hnw
  · obtain ⟨q2, hq2, hr⟩ := delegKwargs_mem cfg w.params s.params p h1
    have heq : q2 = q := name_inj_of_nodup s.params q2 q hsn hq2 hq (by rw [← hr.1, hname])
    rw [← heq]
    exact hr.2.1

/-- Witness for C5 (amended) at source `(a=1)`, wrapper `(**kwargs)`. -/
theorem C5_witness :
    defaultConfig.default_values = false ∧
    (mkP "a" ParamKind.keywordOnly (some "1")).default =
      (mkP "a" ParamKind.positionalOrKeyword (some "1")).default :=
  ⟨rfl, C5_defaults_kept defaultConfig
    ⟨[mkP "a" ParamKind.positionalOrKeyword (some "1")], some "srcdoc", []⟩
    ⟨[mkP "kwargs" ParamKind.varKeyword none], none, []⟩
    ⟨[mkP "a" ParamKind.keywordOnly (some "1")], some "srcdoc", []⟩
    (mkP "a" ParamKind.keywordOnly (some "1"))
    (mkP "a" ParamKind.positionalOrKeyword (some "1"))
    rfl rfl (by decide) (by decide) (by decide) rfl (by decide)⟩

/-- C6 counterexample: source `(a)` (no variadic-keyword parameter) and
wrapper `(**kwargs)` under the default configuration
(`preserve_signature=False`).  The merged signature is `(*, a)` - the
wrapper's collector has been removed although `freeze_signature` was not
requested; the third conjunct records that no variadic-keyword parameter
remains. -/
theorem C6_cex :
    defaultConfig.preserve_signature = false ∧
    decorate defaultConfig
      { params := [mkP "a" ParamKind.positionalOrKeyword none], doc := some "d", anns := [] }
      { params := [mkP "kwargs" ParamKind.varKeyword none], doc := none, anns := [] } =
      Except.ok { params := [mkP "a" ParamKind.keywordOnly none], doc := some "d", anns := [] } ∧
    [mkP "a" ParamKind.keywordOnly none].all (fun p => ! isVarKeyword p) = true :=
  ⟨rfl, rfl, rfl⟩

/-- C6 (amended): the wrapper's collector is dropped unconditionally by the
`[:-1]` slice, so whenever the source has no variadic-keyword parameter the
merged result contains no variadic-keyword parameter at all, for every
configuration. -/
theorem C6_no_varKeyword (cfg : Config) (s w out : Fn)
    (hs : s.params.all (fun p => ! isVarKeyword p) = true)
    (hw : w.params.dropLast.all (fun p => ! isVarKeyword p) = true)
    (hok : decorate cfg s w = Except.ok out) :
    out.params.all (fun p => ! isVarKeyword p) = true := by
  obtain ⟨hparams, _, _, _, _, _⟩ := decorate_ok_inv cfg s w out hok
  rw [hparams, mergedParams, List.all_append, hw, Bool.true_and, List.all_eq_true]
  intro p hp
  obtain ⟨q, hq, hr⟩ := delegKwargs_mem cfg w.params s.params p hp
  have hnp : ¬ p.kind = ParamKind.varKeyword := by
    intro hpvk
    have hqvk := Rsrc_vk_of_vk cfg w.params q p hr hpvk
    rw [List.all_eq_true] at hs
    have hsq := hs q hq
    rw [(isVarKeyword_iff q).mpr hqvk] at hsq
    cases hsq
  cases hk : isVarKeyword p
  · rfl
  · exact absurd ((isVarKeyword_iff p).mp hk) hnp

/-- Witness for C6 (amended) at source `(a)`, wrapper `(**kwargs)`. -/
theorem C6_witness :
    (⟨[mkP "a" ParamKind.keywordOnly none], some "d", []⟩ : Fn).params.all
      (fun p => ! isVarKeyword p) = true :=
  C6_no_varKeyword defaultConfig
    ⟨[mkP "a" ParamKind.positionalOrKeyword none], some "d", []⟩
    ⟨[mkP "kwargs" ParamKind.varKeyword none], none, []⟩
    ⟨[mkP "a" ParamKind.keywordOnly none], some "d", []⟩
    rfl rfl rfl

/-- C7 counterexample: `ignore={"a"}`, source `(a)`, wrapper
`(a, **kwargs)`.  The merged result still contains a parameter named `a`
(the wrapper's own), although the claim says no parameter with an ignored
name appears in the merged result. -/
theorem C7_cex :
    "a" ∈ ({ defaultConfig with ignore := ["a"] } : Config).ignore ∧
    decorate { defaultConfig with ignore := ["a"] }
      { params := [mkP "a" ParamKind.positionalOrKeyword none], doc := some "d", anns := [] }
      { params := [mkP "a" ParamKind.positionalOrKeyword none,
                   mkP "kwargs" ParamKind.varKeyword none], doc := some "w", anns := [] } =
      Except.ok { params := [mkP "a" ParamKind.positionalOrKeyword none], doc := some "d", anns := [] } ∧
    "a" ∈ [mkP "a" ParamKind.positionalOrKeyword none].map Param.name :=
  ⟨by decide, rfl, by decide⟩

/-- C7 (amended): an ignored name can appear in the merged result only if
the wrapper itself declares it; when the wrapper does not, no parameter
with that name survives the merge. -/
theorem C7_ignored_absent (cfg : Config) (s w out : Fn) (n : String)
    (hn : n ∈ cfg.ignore)
    (hnw : ¬ n ∈ w.params.map Param.name)
    (hok : decorate cfg s w = Except.ok out) :
    ¬ n ∈ out.params.map Param.name := by
  obtain ⟨hparams, _, _, _, _, _⟩ := decorate_ok_inv cfg s w out hok
  rw [hparams, mergedParams, List.map_append]
  intro hmem
  rcases List.mem_append.mp hmem with h1 | h1
  · exact hnw (((List.dropLast_sublist w.params).map Param.name).subset h1)
  · obtain ⟨p, hp, hpn⟩ := List.mem_map.mp h1
    obtain ⟨q, hq, hr⟩ := delegKwargs_mem cfg w.params s.params p hp
    apply hr.2.2.2.1
    rw [← hr.1, hpn]
    exact hn

/-- Witness for C7 (amended): `ignore={"a"}`, source `(a, b)`, wrapper
`(**kwargs)`; the merged result `(*, b)` has no parameter named `a`. -/
theorem C7_witness :
    "a" ∈ ({ defaultConfig with ignore := ["a"] } : Config).ignore ∧
    ¬ "a" ∈ ((⟨[mkP "b" ParamKind.keywordOnly none], some "d", []⟩ : Fn).params.map Param.name) :=
  ⟨by decide, C7_ignored_absent { defaultConfig with ignore := ["a"] }
    ⟨[mkP "a" ParamKind.positionalOrKeyword none,
      mkP "b" ParamKind.positionalOrKeyword none], some "d", []⟩
    ⟨[mkP "kwargs" ParamKind.varKeyword none], none, []⟩
    ⟨[mkP "b" ParamKind.keywordOnly none], some "d", []⟩
    "a" (by decide) (by decide) rfl⟩

/-- C8: for signatures within the data model of the spec (only
positional-or-keyword, keyword-only and variadic-keyword kinds; unique
names; the variadic-keyword parameter, if any, last; the wrapper already
grouped), every successful merge returns exactly the wrapper's explicit
parameters followed by the surviving source parameters, and that list is
grouped positional-or-keyword, then keyword-only, then at most one
variadic-keyword parameter in final position. -/
theorem C8_ordering (cfg : Config) (s w out : Fn)
    (hsn : (s.params.map Param.name).Nodup)
    (hssup : s.params.all kindSupported = true)
    (hslast : s.params.dropLast.all (fun p => ! isVarKeyword p) = true)
    (hwg : grouped w.params = true)
    (hok : decorate cfg s w = Except.ok out) :
    out.params = mergedParams cfg s w ∧ grouped out.params = true := by
  obtain ⟨hparams, _, _, _, hcol, _⟩ := decorate_ok_inv cfg s w out hok
  refine ⟨hparams, ?_⟩
  rw [hparams, mergedParams]
  obtain ⟨xs, ys, zs, hweq, hxs, hys, hzs, _⟩ := groupedAux_decomp w.params 0 hwg
  obtain ⟨qv, hqvmem, hqvk⟩ := collectorOK_exists cfg w hcol
  rcases hzs with hz0 | ⟨v, hz1, hvk⟩
  · exfalso
    subst hz0
    rw [hweq] at hqvmem
    simp only [List.append_nil] at hqvmem
    rcases List.mem_append.mp hqvmem with h1 | h1
    · rw [hxs qv h1] at hqvk
      exact ParamKind.noConfusion hqvk
    · rw [hys qv h1] at hqvk
      exact ParamKind.noConfusion hqvk
  · have hdrop : w.params.dropLast = xs ++ ys := by
      rw [hweq, hz1, List.dropLast_concat]
    obtain ⟨us, vs, hdk, hus, hvs⟩ := delegKwargs_shape cfg w.params s.params hsn
      (by rw [List.all_eq_true] at hssup; exact hssup)
      (by rw [List.all_eq_true] at hslast
          intro q hq hqvk2
          have hlq := hslast q hq
          rw [(isVarKeyword_iff q).mpr hqvk2] at hlq
          cases hlq)
    rw [hdrop, hdk, grouped, List.append_assoc]
    apply groupedAux_pok xs _ hxs
    apply groupedAux_ko ys 0 _ (by omega) hys
    apply groupedAux_ko us 1 _ (le_refl 1) hus
    exact groupedAux_end 1 vs hvs

/-- Witness for C8 at source `(a, **extra)` and wrapper `(x, **kwargs)`:
the merged result `(x, *, a, **extra)` equals the concatenation and is
grouped. -/
theorem C8_witness :
    (⟨[mkP "x" ParamKind.positionalOrKeyword none, mkP "a" ParamKind.keywordOnly none,
       mkP "extra" ParamKind.varKeyword none], some "d", []⟩ : Fn).params =
      mergedParams defaultConfig
        ⟨[mkP "a" ParamKind.positionalOrKeyword none, mkP "extra" ParamKind.varKeyword none],
          some "d", []⟩
        ⟨[mkP "x" ParamKind.positionalOrKeyword none, mkP "kwargs" ParamKind.varKeyword none],
          none, []⟩ ∧
    grouped [mkP "x" ParamKind.positionalOrKeyword none, mkP "a" ParamKind.keywordOnly none,
       mkP "extra" ParamKind.varKeyword none] = true :=
  C8_ordering defaultConfig
    ⟨[mkP "a" ParamKind.positionalOrKeyword none, mkP "extra" ParamKind.varKeyword none],
      some "d", []⟩
    ⟨[mkP "x" ParamKind.positionalOrKeyword none, mkP "kwargs" ParamKind.varKeyword none],
      none, []⟩
    ⟨[mkP "x" ParamKind.positionalOrKeyword none, mkP "a" ParamKind.keywordOnly none,
       mkP "extra" ParamKind.varKeyword none], some "d", []⟩
    (by decide) (by decide) (by decide) (by decide) rfl
